import Mathlib

/-!
# Verification of the Boat Management System (`BoatManagement.c`)

Shallow embedding of the marina vessel-management program. Conventions:

* C strings are modelled as Lean `String`s (sequences of characters; the
  program's data is ASCII, where C byte operations and Lean character
  operations agree).
* C `float`/`double` values are modelled as exact rationals (`ℚ`): the
  program uses them only as currency/length quantities.
* `strtok_r(_, ",", _)` tokenisation is modelled by `splitFields`, which
  returns the maximal nonempty runs between commas (strtok never returns
  empty tokens; consecutive delimiters are skipped).
* The fleet (a length-`totalCount` prefix of an array of owned pointers) is
  modelled as a `List Vessel`; interactive operations that read from stdin
  take the read values as arguments; `printf` reporting is modelled by the
  error value each operation returns.
-/

/-- `MAX_VESSELS` from `BoatManagement.c`. -/
def MAX_VESSELS : Nat := 120

/-- `MAX_VESSEL_NAME_LEN` from `BoatManagement.c` (buffer size; the stored
name holds at most `MAX_VESSEL_NAME_LEN - 1 = 127` characters). -/
def MAX_VESSEL_NAME_LEN : Nat := 128

/-- Monthly billing rate `RATE_SLIP` (dollars per foot). -/
def RATE_SLIP : ℚ := 12.50

/-- Monthly billing rate `RATE_LAND` (dollars per foot). -/
def RATE_LAND : ℚ := 14.00

/-- Monthly billing rate `RATE_TRAILER` (dollars per foot). -/
def RATE_TRAILER : ℚ := 25.00

/-- Monthly billing rate `RATE_STORAGE` (dollars per foot). -/
def RATE_STORAGE : ℚ := 11.20

/-- The `LocationCategory` enum. -/
inductive LocationCategory where
  | SLIP
  | LAND
  | TRAILOR
  | STORAGE
deriving DecidableEq, Repr

/-- The `LocDetails` union. The C union always has exactly one live member,
selected by `locationCat`; a sum type models the live member. -/
inductive LocDetails where
  | slipNo (n : ℤ)
  | bayLabel (c : Char)
  | trailerTag (s : String)
  | storageSpot (n : ℤ)
deriving DecidableEq, Repr

/-- The `Vessel` struct. -/
structure Vessel where
  vesselName : String
  lengthFt : ℚ
  locationCat : LocationCategory
  locationInfo : LocDetails
  outstandingFees : ℚ
deriving DecidableEq, Repr

/-! ## C library primitives used by the program -/

/-- `tolower` on a character (ASCII, as in the C default locale); this is
Lean core's `Char.toLower`. -/
def ctolower (c : Char) : Char := c.toLower

/-- Case-folded copy of a string: `tolower` applied characterwise. -/
def caseFold (s : String) : String := String.mk (s.data.map ctolower)

/-- `strcasecmp(a, b) == 0`: equality up to ASCII case. -/
def strcaseEq (a b : String) : Bool := caseFold a = caseFold b

/-- `strcasecmp(a, b) <= 0`: case-insensitive lexicographic order (the
comparison `compareVessels` induces via `qsort`). -/
def strcaseLE (a b : String) : Prop := caseFold a ≤ caseFold b

instance : DecidableRel strcaseLE := fun a b =>
  inferInstanceAs (Decidable (caseFold a ≤ caseFold b))

/-- One character of C `isspace` (default locale). -/
def cisspace (c : Char) : Bool :=
  c = ' ' || c = '\t' || c = '\n' || c = '\x0b' || c = '\x0c' || c = '\r'

/-- Read a maximal run of decimal digits: returns the accumulated value,
the number of digits consumed, and the rest of the input. -/
def readDigits : List Char → Nat → Nat → Nat × Nat × List Char
  | [], acc, n => (acc, n, [])
  | c :: cs, acc, n =>
    if c.isDigit then readDigits cs (acc * 10 + (c.toNat - 48)) (n + 1)
    else (acc, n, c :: cs)

/-- Strip an optional sign, returning whether the value is negated. -/
def readSign : List Char → Bool × List Char
  | '-' :: cs => (true, cs)
  | '+' :: cs => (false, cs)
  | cs => (false, cs)

/-- `atoi`: skip whitespace, optional sign, then leading digits; anything
unparsable yields 0. (Overflow is undefined behaviour in C and not modelled;
the program's inputs are small.) -/
def atoiZ (s : String) : ℤ :=
  let cs := s.data.dropWhile cisspace
  let sgn := readSign cs
  let d := readDigits sgn.2 0 0
  if sgn.1 then -(d.1 : ℤ) else (d.1 : ℤ)

/-- `atof` on decimal inputs: skip whitespace, optional sign, digits,
optional fraction, optional exponent; unparsable text yields 0 and parsing
stops at the first unconvertible character. (C99 hexadecimal floats and
inf/nan spellings are not modelled; the program's data is plain decimal.)
The value is exact (`ℚ` models the C floating types). -/
def atofQ (s : String) : ℚ :=
  let cs := s.data.dropWhile cisspace
  let sgn := readSign cs
  let ip := readDigits sgn.2 0 0
  let fr : Nat × Nat × List Char :=
    if ip.2.2.headD ' ' = '.' then readDigits ip.2.2.tail 0 0
    else (0, 0, ip.2.2)
  if ip.2.1 = 0 ∧ fr.2.1 = 0 then 0
  else
    let mant : ℚ := (ip.1 : ℚ) + (fr.1 : ℚ) / ((10 : ℚ) ^ fr.2.1)
    let expo : ℤ :=
      if fr.2.2.headD ' ' = 'e' ∨ fr.2.2.headD ' ' = 'E' then
        let esgn := readSign fr.2.2.tail
        let ed := readDigits esgn.2 0 0
        if ed.2.1 = 0 then 0
        else if esgn.1 then -(ed.1 : ℤ) else (ed.1 : ℤ)
      else 0
    (if sgn.1 then -mant else mant) * (10 : ℚ) ^ expo

/-- Decimal values of the digit characters, for evaluating `readDigits` at
concrete inputs. -/
lemma digitVal_eval : '0'.toNat = 48 ∧ '1'.toNat = 49 ∧ '2'.toNat = 50 ∧
    '3'.toNat = 51 ∧ '4'.toNat = 52 ∧ '5'.toNat = 53 ∧ '6'.toNat = 54 ∧
    '7'.toNat = 55 ∧ '8'.toNat = 56 ∧ '9'.toNat = 57 := by
  refine ⟨rfl, rfl, rfl, rfl, rfl, rfl, rfl, rfl, rfl, rfl⟩

/-- `strncpy(dst, src, n); dst[n] = 0`: keep the first `n` characters. -/
def strncpyTrunc (s : String) (n : Nat) : String := String.mk (s.data.take n)

/-! ## Tokenisation (`strtok_r` over `","`) -/

/-- Worker for `splitFields`: `cur` holds the characters of the current
token in reverse. `strtok_r` skips runs of delimiters, so empty tokens are
never produced. -/
def splitFieldsAux : List Char → List Char → List String
  | [], cur => if cur = [] then [] else [String.mk cur.reverse]
  | c :: cs, cur =>
    if c = ',' then
      if cur = [] then splitFieldsAux cs []
      else String.mk cur.reverse :: splitFieldsAux cs []
    else splitFieldsAux cs (c :: cur)

/-- The sequence of tokens `strtok_r(line, ",", &rest)` yields: the maximal
nonempty comma-free substrings, in order. -/
def splitFields (line : String) : List String := splitFieldsAux line.data []

/-! ## Line codec (the parsing shared by `loadData` and `insertVessel`) -/

/-- Parse failures. `loadData` drops the record silently; `insertVessel`
prints a message. The constructors follow the distinct failure points (and
`insertVessel`'s distinct messages): `malformedRecord` = "Invalid CSV
format" (name/length/category token missing), `unknownLocationCategory` =
"Unknown location.", `incompleteLocationData` = "Incomplete data."
(location value missing), `missingFeeData` = "Missing fee data.". -/
inductive ParseError where
  | malformedRecord
  | unknownLocationCategory
  | incompleteLocationData
  | missingFeeData
deriving DecidableEq, Repr

/-- Category matching in `loadData`: `strcmp` against the four exact
lowercase tokens. -/
def matchCategoryExact (s : String) : Option LocationCategory :=
  if s = "slip" then some .SLIP
  else if s = "land" then some .LAND
  else if s = "trailor" then some .TRAILOR
  else if s = "storage" then some .STORAGE
  else none

/-- Category matching in `insertVessel`: `strcasecmp` against the four
tokens (case-insensitive). -/
def matchCategoryCI (s : String) : Option LocationCategory :=
  if strcaseEq s "slip" then some .SLIP
  else if strcaseEq s "land" then some .LAND
  else if strcaseEq s "trailor" then some .TRAILOR
  else if strcaseEq s "storage" then some .STORAGE
  else none

/-- The common field-by-field record parse of `loadData` and
`insertVessel`, parameterised by the category matcher (the only point where
the two functions differ). Fields: name, length, category, location value,
fees; tokens beyond the fifth are ignored. The `LAND` branch's
`strlen(segment) == 0` check is kept even though `strtok_r` tokens are
never empty. -/
def parseFieldsWith (matchCat : String → Option LocationCategory) :
    List String → Except ParseError Vessel
  | name :: lenStr :: catStr :: rest =>
    match matchCat catStr with
    | none => .error .unknownLocationCategory
    | some cat =>
      match rest with
      | [] => .error .incompleteLocationData
      | locStr :: rest2 =>
        if cat = .LAND ∧ locStr = "" then .error .incompleteLocationData
        else
          let locInfo : LocDetails :=
            match cat with
            | .SLIP => .slipNo (atoiZ locStr)
            | .LAND => .bayLabel (locStr.data.headD ' ')
            | .TRAILOR => .trailerTag (strncpyTrunc locStr 9)
            | .STORAGE => .storageSpot (atoiZ locStr)
          match rest2 with
          | [] => .error .missingFeeData
          | feeStr :: _ =>
            .ok { vesselName := strncpyTrunc name (MAX_VESSEL_NAME_LEN - 1)
                  lengthFt := atofQ lenStr
                  locationCat := cat
                  locationInfo := locInfo
                  outstandingFees := atofQ feeStr }
  | _ => .error .malformedRecord

/-- The record parse performed by one `loadData` loop iteration on a line
(after the trailing newline is stripped): exact (`strcmp`) category match. -/
def parseVesselLoad (line : String) : Except ParseError Vessel :=
  parseFieldsWith matchCategoryExact (splitFields line)

/-- The record parse performed by `insertVessel` on the CSV line: the line
is first copied into a 256-byte buffer (truncating to 255 characters), then
parsed with case-insensitive (`strcasecmp`) category match. -/
def parseVesselAdd (csvLine : String) : Except ParseError Vessel :=
  parseFieldsWith matchCategoryCI (splitFields (strncpyTrunc csvLine 255))

/-! ## Fleet operations -/

/-- The order `compareVessels` induces on vessels (`strcasecmp` on the
names); `qsort` sorts ascending with respect to it. -/
def vesselLE (a b : Vessel) : Prop := strcaseLE a.vesselName b.vesselName

instance : DecidableRel vesselLE := fun a b =>
  inferInstanceAs (Decidable (strcaseLE a.vesselName b.vesselName))

instance : IsTotal Vessel vesselLE :=
  ⟨fun a b => le_total (caseFold a.vesselName) (caseFold b.vesselName)⟩

instance : IsTrans Vessel vesselLE :=
  ⟨fun _ _ _ h h2 => le_trans h h2⟩

/-- `qsort(fleet, n, sizeof(Vessel*), compareVessels)`: a sort of the
pointer array under `vesselLE`. `qsort` guarantees a sorted permutation
(tie order between equal keys unspecified); insertion sort models it. -/
def sortFleet (fleet : List Vessel) : List Vessel :=
  List.insertionSort vesselLE fleet

/-- `locateVesselByName`'s scan loop, carrying the current index. -/
def locateAux (searchName : String) : List Vessel → Nat → Option Nat
  | [], _ => none
  | v :: vs, i =>
    if strcaseEq v.vesselName searchName then some i
    else locateAux searchName vs (i + 1)

/-- `locateVesselByName`: index of the first vessel whose name matches
case-insensitively, or `none` (C returns -1). -/
def locateVesselByName (fleet : List Vessel) (searchName : String) : Option Nat :=
  locateAux searchName fleet 0

/-- Failures `insertVessel` reports before a record is stored. The
capacity check comes first in the code, so it is checked before parsing. -/
inductive InsertError where
  | capacityExceeded
  | parseFailed (e : ParseError)
deriving DecidableEq, Repr

/-- `insertVessel`: reject at capacity ("Maximum capacity reached"),
otherwise parse the CSV line; on success append the new vessel and re-sort.
On any error the fleet is left as it was (the model returns the error; the
C function prints and returns without touching the array). -/
def insertVessel (fleet : List Vessel) (csvLine : String) :
    Except InsertError (List Vessel) :=
  if MAX_VESSELS ≤ fleet.length then .error .capacityExceeded
  else
    match parseVesselAdd csvLine with
    | .error e => .error (.parseFailed e)
    | .ok newBoat => .ok (sortFleet (fleet ++ [newBoat]))

/-- `removeVessel` with the name already read from stdin: locate the first
case-insensitive match; on a miss ("No boat with that name") the fleet is
unchanged; on a hit free the entry and shift every later entry left by one
(`List.eraseIdx`). -/
def removeVessel (fleet : List Vessel) (targetName : String) : List Vessel :=
  match locateVesselByName fleet targetName with
  | none => fleet
  | some idx => fleet.eraseIdx idx

/-- `recordPayment` with name and amount already read from stdin: locate
the vessel; on a miss the fleet is unchanged; if `amount >=
outstandingFees` the payment is rejected ("That is more than the amount
owed") and nothing changes; otherwise the vessel's balance decreases by
`amount`. -/
def recordPayment (fleet : List Vessel) (inputName : String) (amount : ℚ) :
    List Vessel :=
  match locateVesselByName fleet inputName with
  | none => fleet
  | some index =>
    match fleet[index]? with
    | none => fleet
    | some v =>
      if v.outstandingFees ≤ amount then fleet
      else fleet.set index { v with outstandingFees := v.outstandingFees - amount }

/-- The per-category rate table of `applyMonthlyFees`'s switch. -/
def rateOf : LocationCategory → ℚ
  | .SLIP => RATE_SLIP
  | .LAND => RATE_LAND
  | .TRAILOR => RATE_TRAILER
  | .STORAGE => RATE_STORAGE

/-- `applyMonthlyFees`: every vessel's balance grows by
`lengthFt * rate(locationCat)`; nothing else changes. -/
def applyMonthlyFees (fleet : List Vessel) : List Vessel :=
  fleet.map fun v =>
    { v with outstandingFees := v.outstandingFees + v.lengthFt * rateOf v.locationCat }

/-- `loadData`'s read loop: the guard `*totalCount < MAX_VESSELS` is
checked before each read, lines that fail to parse are skipped silently,
successful records are appended in file order. -/
def loadRecords : List String → List Vessel → List Vessel
  | [], acc => acc
  | line :: lines, acc =>
    if MAX_VESSELS ≤ acc.length then acc
    else
      match parseVesselLoad line with
      | .error _ => loadRecords lines acc
      | .ok newBoat => loadRecords lines (acc ++ [newBoat])

/-- `loadData` on the file's lines (newlines already stripped): read up to
capacity, then `qsort` by name. -/
def loadFleet (lines : List String) : List Vessel :=
  sortFleet (loadRecords lines [])

/-- One interactive fleet mutation: menu option `A` (with the CSV line the
operator types) or `R` (with the name the operator types). -/
inductive FleetOp where
  | insert (csvLine : String)
  | remove (targetName : String)

/-- Apply one menu operation to the fleet; a failed insert leaves the
fleet untouched. -/
def applyOp (fleet : List Vessel) : FleetOp → List Vessel
  | .insert csvLine =>
    match insertVessel fleet csvLine with
    | .ok newFleet => newFleet
    | .error _ => fleet
  | .remove targetName => removeVessel fleet targetName

/-- Apply a whole session's sequence of Insert/Remove operations. -/
def applyOps (fleet : List Vessel) (ops : List FleetOp) : List Vessel :=
  ops.foldl applyOp fleet

/-- The listing order of `listAllVessels`/`saveData` (`All()`): the fleet
is non-decreasing under case-insensitive name comparison. -/
def FleetSorted (fleet : List Vessel) : Prop := List.Sorted vesselLE fleet

instance : DecidablePred FleetSorted := fun fleet =>
  inferInstanceAs (Decidable (List.Pairwise vesselLE fleet))

/-- Every stored vessel name fits the `vesselName[128]` buffer: at most
127 characters. -/
def NamesBounded (fleet : List Vessel) : Prop :=
  ∀ v ∈ fleet, v.vesselName.length ≤ MAX_VESSEL_NAME_LEN - 1

/-! ## Formatting (`saveData`) -/

/-- `locationCategoryToStr`. -/
def locationCategoryToStr : LocationCategory → String
  | .SLIP => "slip"
  | .LAND => "land"
  | .TRAILOR => "trailor"
  | .STORAGE => "storage"

/-- The value printed by `printf("%.0f", x)`: `x` rounded to an integer
(nearest; the model rounds half up, printf half-to-even — no theorem below
evaluates at an exact tie). -/
def round0 (x : ℚ) : ℚ := (⌊x + 1/2⌋ : ℤ)

/-- The value printed by `printf("%.2f", x)`: `x` rounded to two decimal
places (same tie caveat as `round0`). -/
def round2 (x : ℚ) : ℚ := ((⌊x * 100 + 1/2⌋ : ℤ) : ℚ) / 100

/-- The location value `saveData` writes for the live union member. -/
def formatLocDetails : LocDetails → String
  | .slipNo n => toString n
  | .bayLabel c => String.mk [c]
  | .trailerTag s => s
  | .storageSpot n => toString n

/-- The field values `saveData` writes for one vessel:
`name,length(%.0f),category,locationValue,fees(%.2f)`. Numeric fields are
kept as the rounded values the `printf` conversions denote. -/
structure SavedFields where
  nameField : String
  lengthValue : ℚ
  categoryField : String
  locField : String
  feeValue : ℚ
deriving DecidableEq, Repr

/-- `Format`: the record `saveData` writes for a vessel, field by field. -/
def formatVessel (v : Vessel) : SavedFields :=
  { nameField := v.vesselName
    lengthValue := round0 v.lengthFt
    categoryField := locationCategoryToStr v.locationCat
    locField := formatLocDetails v.locationInfo
    feeValue := round2 v.outstandingFees }

/-! ## Sortedness helpers -/

lemma sorted_sortFleet (fleet : List Vessel) : FleetSorted (sortFleet fleet) :=
  List.sorted_insertionSort vesselLE fleet

lemma FleetSorted.eraseIdx {fleet : List Vessel} (h : FleetSorted fleet)
    (i : Nat) : FleetSorted (fleet.eraseIdx i) :=
  List.Pairwise.sublist (List.eraseIdx_sublist fleet i) h

lemma insertVessel_ok_sorted {fleet : List Vessel} {csvLine : String}
    {newFleet : List Vessel} (h : insertVessel fleet csvLine = .ok newFleet) :
    FleetSorted newFleet := by
  unfold insertVessel at h
  split at h
  · exact absurd h (by simp)
  · split at h
    · exact absurd h (by simp)
    · rw [Except.ok.injEq] at h
      exact h ▸ sorted_sortFleet _

lemma sorted_applyOp {fleet : List Vessel} (h : FleetSorted fleet)
    (op : FleetOp) : FleetSorted (applyOp fleet op) := by
  cases op with
  | insert csvLine =>
    simp only [applyOp]
    split
    · rename_i newFleet heq
      exact insertVessel_ok_sorted heq
    · exact h
  | remove targetName =>
    simp only [applyOp, removeVessel]
    split
    · exact h
    · exact h.eraseIdx _

lemma sorted_applyOps {fleet : List Vessel} (h : FleetSorted fleet)
    (ops : List FleetOp) : FleetSorted (applyOps fleet ops) := by
  induction ops generalizing fleet with
  | nil => exact h
  | cons op ops ih => exact ih (sorted_applyOp h op)

/-- **C1.** Starting from the loaded-and-sorted state `loadFleet lines`,
after any sequence of Insert (menu `A`) and Remove (menu `R`) operations
the fleet — the sequence `listAllVessels`/`saveData` traverse — is
non-decreasing in case-insensitive lexicographic order of vessel name. -/
theorem applyOps_loadFleet_sorted (lines : List String) (ops : List FleetOp) :
    FleetSorted (applyOps (loadFleet lines) ops) :=
  sorted_applyOps (sorted_sortFleet _) ops

/-! ## Demonstration vessels (concrete inputs for witnesses) -/

/-- A slip vessel: `Alpha,30,slip,5,100.00`. -/
def vAlpha : Vessel :=
  { vesselName := "Alpha", lengthFt := 30, locationCat := .SLIP
    locationInfo := .slipNo 5, outstandingFees := 100 }

/-- A land vessel: `beta,10,land,B,0.00`. -/
def vBeta : Vessel :=
  { vesselName := "beta", lengthFt := 10, locationCat := .LAND
    locationInfo := .bayLabel 'B', outstandingFees := 0 }

/-- A two-vessel fleet in sorted order. -/
def demoFleet : List Vessel := [vAlpha, vBeta]

/-! ## C6: insertion at capacity -/

/-- **C6.** With the fleet already holding 120 vessels, `insertVessel`
fails with `CapacityExceeded` for every input line (the capacity check
precedes parsing), adds nothing, and leaves the fleet exactly as it was. -/
theorem insertVessel_at_capacity (fleet : List Vessel) (csvLine : String)
    (h : fleet.length = 120) :
    insertVessel fleet csvLine = .error .capacityExceeded ∧
    applyOp fleet (.insert csvLine) = fleet ∧
    (applyOp fleet (.insert csvLine)).length = 120 := by
  have h1 : insertVessel fleet csvLine = .error .capacityExceeded := by
    unfold insertVessel
    rw [if_pos (by rw [h]; exact le_refl MAX_VESSELS)]
  refine ⟨h1, ?_, ?_⟩ <;> simp [applyOp, h1, h]

/-- Witness for C6 at a concrete 120-vessel fleet and line. -/
theorem insertVessel_at_capacity_witness :
    insertVessel (List.replicate 120 vAlpha) "Gamma,20,slip,6,0" =
      .error .capacityExceeded :=
  (insertVessel_at_capacity (List.replicate 120 vAlpha) "Gamma,20,slip,6,0"
    (List.length_replicate 120 vAlpha)).1

/-! ## C3 and C9: payments -/

/-- **C3.** For a vessel present in the fleet (`locateVesselByName` finds
it at `index` with balance `b = v.outstandingFees`): a payment of `amount ≥
b` — including the exact-equality boundary — is rejected and the fleet
(hence the vessel's balance) is unchanged; a payment of `amount < b` sets
the balance to exactly `b - amount`, changing nothing else. -/
theorem recordPayment_spec (fleet : List Vessel) (inputName : String)
    (amount : ℚ) (index : Nat) (v : Vessel)
    (hloc : locateVesselByName fleet inputName = some index)
    (hv : fleet[index]? = some v) :
    (v.outstandingFees ≤ amount → recordPayment fleet inputName amount = fleet) ∧
    (amount < v.outstandingFees →
      recordPayment fleet inputName amount =
        fleet.set index { v with outstandingFees := v.outstandingFees - amount }) := by
  constructor
  · intro hge
    simp only [recordPayment, hloc, hv]
    rw [if_pos hge]
  · intro hlt
    simp only [recordPayment, hloc, hv]
    rw [if_neg (not_le.mpr hlt)]

/-- Witness for C3: on `demoFleet`, paying exactly the 100.00 owed by
`Alpha` is rejected, while paying 40.00 leaves a balance of 60.00. -/
theorem recordPayment_spec_witness :
    recordPayment demoFleet "Alpha" 100 = demoFleet ∧
    recordPayment demoFleet "Alpha" 40 =
      demoFleet.set 0 { vAlpha with outstandingFees := vAlpha.outstandingFees - 40 } :=
  ⟨(recordPayment_spec demoFleet "Alpha" 100 0 vAlpha (by decide) rfl).1
      (by norm_num [vAlpha]),
   (recordPayment_spec demoFleet "Alpha" 40 0 vAlpha (by decide) rfl).2
      (by norm_num [vAlpha])⟩

/-- **C9.** `recordPayment` enforces no lower bound or sign check on the
amount: a negative payment (with `amount < b`, which holds in particular
whenever the balance is non-negative) is accepted and sets the balance to
`b - amount`, strictly increasing it. -/
theorem recordPayment_negative_amount (fleet : List Vessel)
    (inputName : String) (amount : ℚ) (index : Nat) (v : Vessel)
    (hloc : locateVesselByName fleet inputName = some index)
    (hv : fleet[index]? = some v)
    (hneg : amount < 0) (hlt : amount < v.outstandingFees) :
    recordPayment fleet inputName amount =
      fleet.set index { v with outstandingFees := v.outstandingFees - amount } ∧
    v.outstandingFees < v.outstandingFees - amount := by
  constructor
  · simp only [recordPayment, hloc, hv]
    rw [if_neg (not_le.mpr hlt)]
  · linarith

/-- Witness for C9: a payment of −25.00 on `Alpha` raises its balance
from 100.00 toward 125.00. -/
theorem recordPayment_negative_amount_witness :
    recordPayment demoFleet "Alpha" (-25) =
      demoFleet.set 0 { vAlpha with outstandingFees := vAlpha.outstandingFees - (-25) } ∧
    vAlpha.outstandingFees < vAlpha.outstandingFees - (-25) :=
  recordPayment_negative_amount demoFleet "Alpha" (-25) 0 vAlpha (by decide) rfl
    (by norm_num) (by norm_num [vAlpha])

/-! ## C4: monthly billing -/

/-- **C4.** `applyMonthlyFees` adds to every vessel exactly
`lengthFt * rate(locationCat)`, with the rates 12.50 (slip), 14.00 (land),
25.00 (trailor) and 11.20 (storage) dollars per foot, and changes nothing
else (every other field, every other vessel, and the fleet's length are
untouched); in particular a slip vessel of length 30 gains exactly 375.00. -/
theorem applyMonthlyFees_spec (fleet : List Vessel) (i : Nat) (v : Vessel)
    (hv : fleet[i]? = some v) :
    (applyMonthlyFees fleet)[i]? =
      some { v with outstandingFees := v.outstandingFees + v.lengthFt * rateOf v.locationCat } ∧
    (applyMonthlyFees fleet).length = fleet.length ∧
    rateOf .SLIP = 12.50 ∧ rateOf .LAND = 14.00 ∧
    rateOf .TRAILOR = 25.00 ∧ rateOf .STORAGE = 11.20 ∧
    (v.locationCat = .SLIP → v.lengthFt = 30 →
      (applyMonthlyFees fleet)[i]? =
        some { v with outstandingFees := v.outstandingFees + 375 }) := by
  have hmap : (applyMonthlyFees fleet)[i]? =
      some { v with outstandingFees := v.outstandingFees + v.lengthFt * rateOf v.locationCat } := by
    simp [applyMonthlyFees, hv]
  refine ⟨hmap, by simp [applyMonthlyFees], rfl, rfl, rfl, rfl, ?_⟩
  intro hcat hlen
  rw [hmap, hcat, hlen]
  norm_num [rateOf, RATE_SLIP]

/-- Witness for C4: billing the demo fleet charges `Alpha` (slip, 30 feet)
exactly 375.00. -/
theorem applyMonthlyFees_spec_witness :
    (applyMonthlyFees demoFleet)[0]? =
      some { vAlpha with outstandingFees := vAlpha.outstandingFees + 375 } :=
  (applyMonthlyFees_spec demoFleet 0 vAlpha rfl).2.2.2.2.2.2 rfl rfl

/-! ## C8: removal by name -/

lemma locateAux_some {searchName : String} {l : List Vessel} {k i : Nat}
    (h : locateAux searchName l k = some i) :
    ∃ j, i = k + j ∧ j < l.length ∧
      (∃ v, l[j]? = some v ∧ strcaseEq v.vesselName searchName = true) ∧
      ∀ (j2 : Nat) (w : Vessel), j2 < j → l[j2]? = some w →
        strcaseEq w.vesselName searchName = false := by
  induction l generalizing k i with
  | nil => simp [locateAux] at h
  | cons v vs ih =>
    rw [locateAux] at h
    by_cases hm : strcaseEq v.vesselName searchName = true
    · rw [if_pos hm, Option.some.injEq] at h
      exact ⟨0, h.symm, by simp, ⟨v, by simp, hm⟩, by omega⟩
    · rw [if_neg hm] at h
      obtain ⟨j, rfl, hlt, ⟨w, hw, hmatch⟩, hmin⟩ := ih h
      refine ⟨j + 1, by omega, by simp; omega, ⟨w, by simpa using hw, hmatch⟩, ?_⟩
      intro j2 w2 hj2 hw2
      cases j2 with
      | zero =>
        rw [List.getElem?_cons_zero, Option.some.injEq] at hw2
        rw [← hw2]
        exact Bool.not_eq_true _ ▸ hm
      | succ j3 =>
        rw [List.getElem?_cons_succ] at hw2
        exact hmin j3 w2 (by omega) hw2

lemma locateAux_none {searchName : String} {l : List Vessel} {k : Nat}
    (h : locateAux searchName l k = none) :
    ∀ (j : Nat) (w : Vessel), l[j]? = some w → strcaseEq w.vesselName searchName = false := by
  induction l generalizing k with
  | nil => intro j w hw; simp at hw
  | cons v vs ih =>
    rw [locateAux] at h
    by_cases hm : strcaseEq v.vesselName searchName = true
    · rw [if_pos hm] at h; exact absurd h (by simp)
    · rw [if_neg hm] at h
      intro j w hw
      cases j with
      | zero =>
        rw [List.getElem?_cons_zero, Option.some.injEq] at hw
        rw [← hw]
        exact Bool.not_eq_true _ ▸ hm
      | succ j2 =>
        rw [List.getElem?_cons_succ] at hw
        exact ih h j2 w hw

/-- **C8.** If some vessel matches the target name case-insensitively,
`removeVessel` deletes the first such entry in the fleet's (sorted) order —
the entry at the index `locateVesselByName` returns, before which no entry
matches — and shifts all subsequent entries left by one, leaving every
other entry unmodified and in relative order (`take idx ++ drop (idx+1)`;
no re-sort); if no vessel matches, the fleet is completely unchanged. -/
theorem removeVessel_spec (fleet : List Vessel) (targetName : String) :
    (∀ idx, locateVesselByName fleet targetName = some idx →
      idx < fleet.length ∧
      (∃ v, fleet[idx]? = some v ∧ strcaseEq v.vesselName targetName = true) ∧
      (∀ (j : Nat) (w : Vessel), j < idx → fleet[j]? = some w →
        strcaseEq w.vesselName targetName = false) ∧
      removeVessel fleet targetName = fleet.take idx ++ fleet.drop (idx + 1)) ∧
    (locateVesselByName fleet targetName = none →
      removeVessel fleet targetName = fleet ∧
      ∀ (j : Nat) (w : Vessel), fleet[j]? = some w → strcaseEq w.vesselName targetName = false) := by
  constructor
  · intro idx hidx
    obtain ⟨j, hj, hlt, hhit, hmin⟩ := locateAux_some hidx
    have hj0 : idx = j := by omega
    subst hj0
    refine ⟨hlt, hhit, hmin, ?_⟩
    simp only [removeVessel, hidx]
    exact List.eraseIdx_eq_take_drop_succ fleet idx
  · intro hnone
    refine ⟨?_, locateAux_none hnone⟩
    simp only [removeVessel, hnone]

/-- Witness for C8 on `demoFleet`: removing `"ALPHA"` (a case-insensitive
match for `"Alpha"` at index 0) yields `[vBeta]`, and removing the
unmatched `"Gamma"` changes nothing. -/
theorem removeVessel_spec_witness :
    removeVessel demoFleet "ALPHA" = demoFleet.take 0 ++ demoFleet.drop 1 ∧
    removeVessel demoFleet "Gamma" = demoFleet :=
  ⟨((removeVessel_spec demoFleet "ALPHA").1 0 (by decide)).2.2.2,
   ((removeVessel_spec demoFleet "Gamma").2 (by decide)).1⟩

/-! ## C2: category matching -/

/-- **C2 (counterexample).** The claim that category matching is
case-insensitive on both parse paths fails on the bulk-load path: on the
line `Alpha,30,SLIP,5,100.00` the load parse (`strcmp`) rejects the
uppercased member `SLIP` as an unknown category, while the interactive-add
parse (`strcasecmp`) accepts it. -/
theorem load_category_not_case_insensitive :
    parseVesselLoad "Alpha,30,SLIP,5,100.00" = .error .unknownLocationCategory ∧
    parseVesselAdd "Alpha,30,SLIP,5,100.00" =
      .ok { vesselName := "Alpha", lengthFt := atofQ "30", locationCat := .SLIP
            locationInfo := .slipNo (atoiZ "5"), outstandingFees := atofQ "100.00" } :=
  ⟨rfl, rfl⟩

/-- **C2 (amended).** The interactive-add parse matches the category field
case-insensitively against {slip, land, trailor, storage}, while the
bulk-load parse matches it case-sensitively (exact lowercase tokens only);
on either path, a category token matching neither way fails with
`UnknownLocationCategory`, and such a failed interactive add leaves the
fleet unchanged (the record is not added). -/
theorem category_match_per_path (catStr nameStr lenStr : String)
    (rest : List String) (fleet : List Vessel) (csvLine : String) :
    (matchCategoryCI catStr = none ↔
      caseFold catStr ∉ (["slip", "land", "trailor", "storage"] : List String)) ∧
    (matchCategoryExact catStr = none ↔
      catStr ∉ (["slip", "land", "trailor", "storage"] : List String)) ∧
    (matchCategoryCI catStr = none →
      parseFieldsWith matchCategoryCI (nameStr :: lenStr :: catStr :: rest) =
        .error .unknownLocationCategory) ∧
    (matchCategoryExact catStr = none →
      parseFieldsWith matchCategoryExact (nameStr :: lenStr :: catStr :: rest) =
        .error .unknownLocationCategory) ∧
    (parseVesselAdd csvLine = .error .unknownLocationCategory →
      applyOp fleet (.insert csvLine) = fleet) := by
  have hfold : caseFold "slip" = "slip" ∧ caseFold "land" = "land" ∧
      caseFold "trailor" = "trailor" ∧ caseFold "storage" = "storage" := by decide
  refine ⟨?_, ?_, ?_, ?_, ?_⟩
  · simp only [matchCategoryCI, strcaseEq, decide_eq_true_eq, hfold.1,
      hfold.2.1, hfold.2.2.1, hfold.2.2.2]
    split_ifs with h1 h2 h3 h4 <;> simp_all
  · simp only [matchCategoryExact]
    split_ifs with h1 h2 h3 h4 <;> simp_all
  · intro h
    simp only [parseFieldsWith, h]
  · intro h
    simp only [parseFieldsWith, h]
  · intro h
    simp only [applyOp, insertVessel, h]
    split
    · rename_i heq
      split at heq <;> exact absurd heq (by simp)
    · rfl

/-- Witness for the amended C2 at the concrete unknown token `dock`: the
interactive parse rejects it and a failed interactive add changes nothing. -/
theorem category_match_per_path_witness :
    parseFieldsWith matchCategoryCI ["X", "10", "dock", "1", "0"] =
      .error .unknownLocationCategory ∧
    applyOp demoFleet (.insert "X,10,dock,1,0") = demoFleet :=
  ⟨(category_match_per_path "dock" "X" "10" ["1", "0"] demoFleet
      "X,10,dock,1,0").2.2.1 (by decide),
   (category_match_per_path "dock" "X" "10" ["1", "0"] demoFleet
      "X,10,dock,1,0").2.2.2.2 rfl⟩

/-! ## C7: empty or missing name field -/

/-- **C7 (counterexample).** The claim that a line with an empty name
field fails with `MalformedRecord` is false: on `,A,10,slip,5,0` (empty
name field) `strtok_r` skips the leading comma, so the bulk-load parse
succeeds with the shifted name `A` (length 10, slip 5). -/
theorem empty_name_field_parses_shifted :
    ∃ v, parseVesselLoad ",A,10,slip,5,0" = .ok v ∧ v.vesselName = "A" :=
  ⟨_, rfl, rfl⟩

lemma splitFieldsAux_ne_empty (cs cur : List Char) :
    ∀ t ∈ splitFieldsAux cs cur, t ≠ "" := by
  induction cs generalizing cur with
  | nil =>
    intro t ht
    rw [splitFieldsAux] at ht
    split at ht
    · simp at ht
    · rename_i hcur
      rw [List.mem_singleton] at ht
      subst ht
      simp [String.ext_iff, hcur]
  | cons c cs ih =>
    intro t ht
    rw [splitFieldsAux] at ht
    split at ht
    · split at ht
      · exact ih [] t ht
      · rename_i hcur
        rw [List.mem_cons] at ht
        rcases ht with ht | ht
        · subst ht
          simp [String.ext_iff, hcur]
        · exact ih [] t ht
    · exact ih (c :: cur) t ht

lemma parseFieldsWith_malformed_iff
    (mc : String → Option LocationCategory) (fields : List String) :
    parseFieldsWith mc fields = .error .malformedRecord ↔ fields.length < 3 := by
  match fields with
  | [] => simp [parseFieldsWith]
  | [a] => simp [parseFieldsWith]
  | [a, b] => simp [parseFieldsWith]
  | a :: b :: c :: rest =>
    simp only [List.length_cons]
    constructor
    · intro h
      exfalso
      simp only [parseFieldsWith] at h
      split at h
      · exact absurd h (by simp)
      · split at h
        · exact absurd h (by simp)
        · split at h
          · exact absurd h (by simp)
          · split at h
            · exact absurd h (by simp)
            · exact absurd h (by simp)
    · intro h
      omega

/-- **C7 (amended).** `strtok_r`-style tokenisation never yields an empty
token, so an empty name field is never seen as such: the following fields
shift left into its place and the parse proceeds on them. On both parse
paths, the parse fails with `MalformedRecord` exactly when the tokenised
line has fewer than three (nonempty) fields — in particular a fully empty
line fails that way, but a line with an empty name field and enough later
fields does not. -/
theorem parse_malformed_iff_too_few_fields (line csvLine : String) :
    (∀ t ∈ splitFields line, t ≠ "") ∧
    (parseVesselLoad line = .error .malformedRecord ↔
      (splitFields line).length < 3) ∧
    (parseVesselAdd csvLine = .error .malformedRecord ↔
      (splitFields (strncpyTrunc csvLine 255)).length < 3) :=
  ⟨splitFieldsAux_ne_empty line.data [],
   parseFieldsWith_malformed_iff matchCategoryExact (splitFields line),
   parseFieldsWith_malformed_iff matchCategoryCI (splitFields (strncpyTrunc csvLine 255))⟩

/-- Witness for the amended C7: the token-free line `,,,` fails with
`MalformedRecord` on the load path. -/
theorem parse_malformed_iff_too_few_fields_witness :
    parseVesselLoad ",,," = .error .malformedRecord :=
  (parse_malformed_iff_too_few_fields ",,," "").2.1.mpr (by decide)

/-! ## C10: name length invariant -/

lemma strncpyTrunc_length_le (s : String) (n : Nat) :
    (strncpyTrunc s n).length ≤ n := by
  simp only [strncpyTrunc, String.length]
  exact List.length_take_le n s.data

lemma parseFieldsWith_ok_name {mc : String → Option LocationCategory}
    {fields : List String} {v : Vessel}
    (h : parseFieldsWith mc fields = .ok v) :
    ∃ name rest, fields = name :: rest ∧
      v.vesselName = strncpyTrunc name (MAX_VESSEL_NAME_LEN - 1) := by
  match fields with
  | [] => simp [parseFieldsWith] at h
  | [a] => simp [parseFieldsWith] at h
  | [a, b] => simp [parseFieldsWith] at h
  | name :: lenStr :: catStr :: rest =>
    refine ⟨name, lenStr :: catStr :: rest, rfl, ?_⟩
    simp only [parseFieldsWith] at h
    split at h
    · exact absurd h (by simp)
    · split at h
      · exact absurd h (by simp)
      · split at h
        · exact absurd h (by simp)
        · split at h
          · exact absurd h (by simp)
          · rw [Except.ok.injEq] at h
            rw [← h]

lemma parseFieldsWith_ok_name_le {mc : String → Option LocationCategory}
    {fields : List String} {v : Vessel}
    (h : parseFieldsWith mc fields = .ok v) :
    v.vesselName.length ≤ MAX_VESSEL_NAME_LEN - 1 := by
  obtain ⟨name, rest, _, hname⟩ := parseFieldsWith_ok_name h
  rw [hname]
  exact strncpyTrunc_length_le name (MAX_VESSEL_NAME_LEN - 1)

lemma namesBounded_sortFleet {fleet : List Vessel} (h : NamesBounded fleet) :
    NamesBounded (sortFleet fleet) := fun v hv =>
  h v ((List.perm_insertionSort vesselLE fleet).mem_iff.mp hv)

lemma namesBounded_append {l1 l2 : List Vessel} (h1 : NamesBounded l1)
    (h2 : NamesBounded l2) : NamesBounded (l1 ++ l2) := by
  intro v hv
  rcases List.mem_append.mp hv with h | h
  exacts [h1 v h, h2 v h]

lemma namesBounded_singleton {v : Vessel}
    (h : v.vesselName.length ≤ MAX_VESSEL_NAME_LEN - 1) :
    NamesBounded [v] := by
  intro w hw
  rw [List.mem_singleton] at hw
  subst hw
  exact h

lemma namesBounded_applyOp {fleet : List Vessel} (h : NamesBounded fleet)
    (op : FleetOp) : NamesBounded (applyOp fleet op) := by
  cases op with
  | insert csvLine =>
    simp only [applyOp]
    split
    · rename_i newFleet heq
      unfold insertVessel at heq
      split at heq
      · exact absurd heq (by simp)
      · split at heq
        · exact absurd heq (by simp)
        · rename_i newBoat hparse
          rw [Except.ok.injEq] at heq
          rw [← heq]
          exact namesBounded_sortFleet
            (namesBounded_append h (namesBounded_singleton
              (parseFieldsWith_ok_name_le hparse)))
    · exact h
  | remove targetName =>
    simp only [applyOp, removeVessel]
    split
    · exact h
    · exact fun v hv =>
        h v (List.Sublist.subset (List.eraseIdx_sublist fleet _) hv)

lemma namesBounded_loadRecords (lines : List String) (acc : List Vessel)
    (h : NamesBounded acc) : NamesBounded (loadRecords lines acc) := by
  induction lines generalizing acc with
  | nil => exact h
  | cons line lines ih =>
    rw [loadRecords]
    split
    · exact h
    · split
      · exact ih acc h
      · rename_i newBoat hparse
        exact ih _ (namesBounded_append h (namesBounded_singleton
          (parseFieldsWith_ok_name_le hparse)))

lemma namesBounded_applyOps {fleet : List Vessel} (h : NamesBounded fleet)
    (ops : List FleetOp) : NamesBounded (applyOps fleet ops) := by
  induction ops generalizing fleet with
  | nil => exact h
  | cons op ops ih => exact ih (namesBounded_applyOp h op)

/-- **C10.** Both parse paths truncate the name field to its first 127
characters (`strncpy` with `MAX_VESSEL_NAME_LEN - 1`) before storing it,
so every vessel ever stored in the fleet has a name of at most 127
characters, and the bound is preserved by every sequence of operations on
a loaded fleet. -/
theorem vessel_name_truncation :
    (∀ (line : String) (v : Vessel), parseVesselLoad line = .ok v →
      (∃ name rest, splitFields line = name :: rest ∧
        v.vesselName = strncpyTrunc name 127) ∧ v.vesselName.length ≤ 127) ∧
    (∀ (csvLine : String) (v : Vessel), parseVesselAdd csvLine = .ok v →
      (∃ name rest, splitFields (strncpyTrunc csvLine 255) = name :: rest ∧
        v.vesselName = strncpyTrunc name 127) ∧ v.vesselName.length ≤ 127) ∧
    (∀ (lines : List String) (ops : List FleetOp),
      NamesBounded (applyOps (loadFleet lines) ops)) := by
  refine ⟨fun line v h => ⟨parseFieldsWith_ok_name h, parseFieldsWith_ok_name_le h⟩,
    fun csvLine v h => ⟨parseFieldsWith_ok_name h, parseFieldsWith_ok_name_le h⟩,
    fun lines ops => ?_⟩
  exact namesBounded_applyOps
    (namesBounded_sortFleet
      (namesBounded_loadRecords lines [] (fun v hv => absurd hv (by simp)))) ops

/-- A 130-character name field, longer than the 127-character capacity of
the `vesselName` buffer. -/
def longName : String := String.mk (List.replicate 130 'a')

/-- An input line whose name field is `longName`. -/
def longLine : String := longName ++ ",30,slip,5,0"

/-- The vessel the load parse produces from `longLine`: its stored name is
`longName` truncated to 127 characters. -/
def vLong : Vessel :=
  { vesselName := strncpyTrunc longName 127, lengthFt := atofQ "30"
    locationCat := .SLIP, locationInfo := .slipNo (atoiZ "5")
    outstandingFees := atofQ "0" }

/-- Witness for C10 at `longLine`: the parsed vessel's name is the
truncation of the first field and fits in 127 characters. -/
theorem vessel_name_truncation_witness :
    (∃ name rest, splitFields longLine = name :: rest ∧
      vLong.vesselName = strncpyTrunc name 127) ∧
    vLong.vesselName.length ≤ 127 :=
  vessel_name_truncation.1 longLine vLong rfl

/-! ## C5: format/parse round trip -/

/-- **C5 (counterexample).** `Format ∘ Parse` does not reproduce the fee
value exactly for every valid 5-field line: on
`Alpha,30,slip,5,0.001` the fee parses to 1/1000 of a dollar, but
`saveData`'s `%.2f` writes it as `0.00` — a different value. -/
theorem format_fee_not_exact :
    ∃ v, parseVesselLoad "Alpha,30,slip,5,0.001" = .ok v ∧
      (formatVessel v).feeValue ≠ v.outstandingFees := by
  refine ⟨{ vesselName := "Alpha", lengthFt := atofQ "30", locationCat := .SLIP
            locationInfo := .slipNo (atoiZ "5"), outstandingFees := atofQ "0.001" },
    rfl, ?_⟩
  have h : atofQ "0.001" = 1/1000 := by
    simp +decide only [atofQ, readDigits, readSign, cisspace, List.dropWhile,
      List.headD, List.tail, digitVal_eval]
    norm_num
  simp only [formatVessel, round2, h]
  norm_num

lemma locationCategoryToStr_matchExact {catStr : String}
    {cat : LocationCategory} (h : matchCategoryExact catStr = some cat) :
    locationCategoryToStr cat = catStr := by
  simp only [matchCategoryExact] at h
  split_ifs at h with h1 h2 h3 h4 <;>
    (rw [Option.some.injEq] at h; subst h; simp [locationCategoryToStr, *])

lemma parseFieldsWith_ok_fields {mc : String → Option LocationCategory}
    {name lenStr catStr locStr feeStr : String} {rest : List String}
    {v : Vessel}
    (h : parseFieldsWith mc
      (name :: lenStr :: catStr :: locStr :: feeStr :: rest) = .ok v) :
    ∃ cat, mc catStr = some cat ∧ v.locationCat = cat ∧
      v.outstandingFees = atofQ feeStr ∧ v.lengthFt = atofQ lenStr := by
  simp only [parseFieldsWith] at h
  split at h
  · exact absurd h (by simp)
  · rename_i cat hcat
    split at h
    · exact absurd h (by simp)
    · rw [Except.ok.injEq] at h
      exact ⟨cat, hcat, by rw [← h], by rw [← h], by rw [← h]⟩

lemma round2_int_div_100 (k : ℤ) :
    round2 ((k : ℚ) / 100) = (k : ℚ) / 100 := by
  unfold round2
  have h1 : (k : ℚ) / 100 * 100 + 1/2 = (k : ℚ) + 1/2 := by
    field_simp
  rw [h1, Int.floor_int_add]
  norm_num

/-- **C5 (amended).** For every valid 5-field line accepted by the
bulk-load parse, `Format ∘ Parse` reproduces the category token exactly,
and reproduces the fee value exactly whenever that value has at most two
decimal places (an integer number of cents); it need not reproduce a
fractional length, since length is written with zero decimal places (the
line `Gamma,10.3,slip,5,0` is a concrete instance of the loss). -/
theorem format_roundtrip (line name lenStr catStr locStr feeStr : String)
    (rest : List String) (v : Vessel)
    (hsplit : splitFields line = name :: lenStr :: catStr :: locStr :: feeStr :: rest)
    (hparse : parseVesselLoad line = .ok v) :
    (formatVessel v).categoryField = catStr ∧
    (∀ k : ℤ, atofQ feeStr = (k : ℚ) / 100 →
      (formatVessel v).feeValue = atofQ feeStr) ∧
    ∃ w, parseVesselLoad "Gamma,10.3,slip,5,0" = .ok w ∧
      (formatVessel w).lengthValue ≠ w.lengthFt := by
  rw [parseVesselLoad, hsplit] at hparse
  obtain ⟨cat, hcat, hvcat, hvfee, _⟩ := parseFieldsWith_ok_fields hparse
  refine ⟨?_, ?_, ?_⟩
  · simp only [formatVessel, hvcat]
    exact locationCategoryToStr_matchExact hcat
  · intro k hk
    simp only [formatVessel, hvfee, hk]
    exact round2_int_div_100 k
  · refine ⟨{ vesselName := "Gamma", lengthFt := atofQ "10.3", locationCat := .SLIP
              locationInfo := .slipNo (atoiZ "5"), outstandingFees := atofQ "0" },
      rfl, ?_⟩
    have h : atofQ "10.3" = 103/10 := by
      simp +decide only [atofQ, readDigits, readSign, cisspace, List.dropWhile,
        List.headD, List.tail, digitVal_eval]
      norm_num
    simp only [formatVessel, round0, h]
    norm_num

/-- The vessel the load parse produces from `Alpha,30,slip,5,100.00`. -/
def vAlphaParsed : Vessel :=
  { vesselName := "Alpha", lengthFt := atofQ "30", locationCat := .SLIP
    locationInfo := .slipNo (atoiZ "5"), outstandingFees := atofQ "100.00" }

/-- Witness for the amended C5 on `Alpha,30,slip,5,100.00`: the category
token `slip` and the two-decimal fee 100.00 are reproduced exactly. -/
theorem format_roundtrip_witness :
    (formatVessel vAlphaParsed).categoryField = "slip" ∧
    (formatVessel vAlphaParsed).feeValue = atofQ "100.00" :=
  ⟨(format_roundtrip "Alpha,30,slip,5,100.00" "Alpha" "30" "slip" "5" "100.00"
      [] vAlphaParsed rfl rfl).1,
   (format_roundtrip "Alpha,30,slip,5,100.00" "Alpha" "30" "slip" "5" "100.00"
      [] vAlphaParsed rfl rfl).2.1 10000 (by
        simp +decide only [atofQ, readDigits, readSign, cisspace, List.dropWhile,
          List.headD, List.tail, digitVal_eval]
        norm_num)⟩

/-- Witness for C1 at a concrete session: load two lines, insert one boat
and remove another; the listing stays sorted. -/
theorem applyOps_loadFleet_sorted_witness :
    FleetSorted (applyOps
      (loadFleet ["Alpha,30,slip,5,100.00", "beta,10,land,B,0.00"])
      [.insert "Gamma,20,storage,7,0", .remove "ALPHA"]) :=
  applyOps_loadFleet_sorted
    ["Alpha,30,slip,5,100.00", "beta,10,land,B,0.00"]
    [.insert "Gamma,20,storage,7,0", .remove "ALPHA"]
